import Mathlib

set_option autoImplicit false

/-!
Shallow embedding of the two-stage buy-prediction pipeline
(`src/buy_model.py` and `src/orchstrator.py`).

Modelling conventions:
* A pandas cell value is `Option Value`: `none` models a missing field /
  `NaN`, `some (Value.num q)` a numeric value, `some (Value.str s)` a
  string value.
* A `DataFrame` is a column-label list (with multiplicity, since pandas
  allows duplicate column labels) together with a list of rows; a row is
  a total function from labels to cell values.  Column selection
  `df[sel]` keeps the row functions and replaces the label list, which
  is faithful here because every selection in the source selects labels
  that are present.
* `pd.api.types.is_numeric_dtype(df[c])` is `true` exactly when the
  label `c` occurs once in `df.columns` (a duplicated label makes
  `df[c]` a DataFrame, for which `is_numeric_dtype` returns `false`)
  and no cell of the column holds a string (a NaN cell keeps the dtype
  numeric).
* External collaborators are oracles: the XGBoost booster is a per-row
  scoring function (`none` models a NaN prediction), MongoDB reads are
  a list of documents, MongoDB writes are modelled by `upsertOne`
  (`update_one` with `upsert=True` on filter `symbol`+`prediction`),
  and a possible per-record write exception is a boolean oracle.
* `os.path.join(base_dir, "..", p)` is injective in `p`; the oracle
  `fileExists` is applied directly to the configured relative path.
-/

namespace PredictionBuy

/-! ## Cell values, rows, data frames -/

inductive Value where
  | num (q : ℚ)
  | str (s : String)
deriving DecidableEq, Repr

def Value.isStr : Value → Bool
  | .str _ => true
  | .num _ => false

abbrev Row := String → Option Value

def updateRow (r : Row) (name : String) (v : Option Value) : Row :=
  fun c => if c = name then v else r c

structure DataFrame where
  cols : List String
  rows : List Row

/-- `df.empty` in pandas: true when either axis has length zero. -/
def DataFrame.empty (df : DataFrame) : Bool :=
  df.rows.isEmpty || df.cols.isEmpty

/-- Column assignment `df[name] = vals` (positional, overwrites the label
list only when the label is new). -/
def DataFrame.setCol (df : DataFrame) (name : String) (vals : List (Option Value)) : DataFrame :=
  { cols := if df.cols.contains name then df.cols else df.cols ++ [name]
    rows := List.zipWith (fun r v => updateRow r name v) df.rows vals }

/-- Column selection `df[sel]`. -/
def DataFrame.select (df : DataFrame) (sel : List String) : DataFrame :=
  { cols := sel, rows := df.rows }

/-- `pd.api.types.is_numeric_dtype(df[c])`, see the header comment. -/
def DataFrame.isNumericCol (df : DataFrame) (c : String) : Bool :=
  df.cols.count c == 1 && df.rows.all (fun r => !((r c).any Value.isStr))

/-! ## buy_model.py -/

/-- `REQUIRED_COLUMNS` of `src/buy_model.py` (verbatim, duplicates
included: `relative_volume` and `rsi_x_relative_volume` occur twice). -/
def REQUIRED_COLUMNS : List String := [
  "open", "high", "low", "close", "volume", "quote_asset_volume",
  "number_of_trades", "taker_buy_base", "taker_buy_quote", "macd",
  "macd_signal", "macd_histogram", "rsi", "rsi_sma", "ema_100",
  "ema_200", "atr", "relative_volume", "quote_volume_ratio",
  "buy_sell_pressure", "ema_ratio", "rsi_x_relative_volume",
  "macd_histogram_x_atr", "buy_sell_pressure_x_ema_ratio", "relative_volume", "rsi_x_relative_volume"
]

/-- Oracle for the XGBoost collaborator: whether `load_model` succeeds
for a path, whether the batched predict call raises, and the booster
itself as a per-row scoring function over the projected feature vector
(`none` models a NaN score). -/
structure ModelOracle where
  loadOk : String → Bool
  predictOk : Bool
  score : List (Option Value) → Option ℚ

inductive RunResult where
  | err (message : String)
  | ok (suggested_trades : DataFrame)

/-- `feature_cols = [c for c in REQUIRED_COLUMNS if c in df.columns and
pd.api.types.is_numeric_dtype(df[c])]` (list comprehension: multiplicity
of `REQUIRED_COLUMNS` is preserved). -/
def featureColsOf (df : DataFrame) : List String :=
  REQUIRED_COLUMNS.filter (fun c => df.cols.contains c && df.isNumericCol c)

/-- `preds = model.predict(xgb.DMatrix(df[feature_cols]))`: one score per
row of `df`, in row order, each computed from that row's projection onto
`feature_cols`. -/
def predsOf (m : ModelOracle) (df : DataFrame) (fcols : List String) : List (Option ℚ) :=
  df.rows.map (fun r => m.score (fcols.map r))

/-- Lines 59-72 of `src/buy_model.py` in the non-raising case:
`df["confidence_score"] = preds`, `df["prediction"] = "BUY"`, then
`df[["prediction", "confidence_score"]]`. -/
def scoredFrame (m : ModelOracle) (df : DataFrame) : DataFrame :=
  let df1 := df.setCol "confidence_score"
    ((predsOf m df (featureColsOf df)).map (Option.map Value.num))
  let df2 := df1.setCol "prediction" (List.replicate df1.rows.length (some (Value.str "BUY")))
  df2.select ["prediction", "confidence_score"]

/-- `run(inputs)` of `src/buy_model.py`. -/
def run (m : ModelOracle) (data : Option DataFrame) (model_file : Option String) : RunResult :=
  match data with
  | none => .err "No input data"
  | some df =>
    if df.empty then .err "No input data"
    else
      match model_file with
      | none => .err "model_file required"
      | some mf =>
        if mf = "" then .err "model_file required"
        else if !m.loadOk mf then .err "Failed to load model"
        else if (featureColsOf df).isEmpty then .err "No feature columns available for prediction"
        else if !m.predictOk then .err "Prediction failed"
        else .ok (scoredFrame m df)

/-! ## orchstrator.py : constants, documents, fetch -/

/-- `BOUGHT_COLUMNS` of `src/orchstrator.py` (verbatim, duplicates
included: `rsi_x_relative_volume` and `relative_volume` occur twice). -/
def BOUGHT_COLUMNS : List String := [
  "open", "high", "low", "close", "volume",
  "macd",
  "macd_signal", "macd_histogram", "rsi", "rsi_sma", "ema_100",
  "ema_200", "atr", "relative_volume", "quote_volume_ratio",
  "buy_sell_pressure", "ema_ratio", "rsi_x_relative_volume",
  "macd_histogram_x_atr", "buy_sell_pressure_x_ema_ratio", "rsi_x_relative_volume", "relative_volume"
]

/-- A document of the source feature collection: the `_id`, `symbol` and
`timestamp` fields plus the feature fields (`featCols` are the feature
field names present in the document). -/
structure Doc where
  oid : String
  symbol : String
  timestamp : ℤ
  featCols : List String
  feat : String → Option Value

def Doc.cols (d : Doc) : List String :=
  ["_id", "symbol", "timestamp"] ++ d.featCols

def Doc.row (d : Doc) : Row := fun c =>
  if c = "_id" then some (.str d.oid)
  else if c = "symbol" then some (.str d.symbol)
  else if c = "timestamp" then some (.num (d.timestamp : ℚ))
  else if d.featCols.contains c then d.feat c else none

/-- Of two candidates, keep the one with the later timestamp (the
earlier-seen one on ties). -/
def pickLater (acc : Option Doc) (d : Doc) : Option Doc :=
  match acc with
  | none => some d
  | some b => if d.timestamp > b.timestamp then some d else some b

/-- `collection.find({"symbol": symbol}).sort("timestamp", -1).limit(1)`:
some matching document of maximal timestamp, or none.  (MongoDB leaves
the choice among timestamp ties unspecified; the fold keeps the first
maximal one.) -/
def latestDoc (store : List Doc) (s : String) : Option Doc :=
  (store.filter (fun d => d.symbol == s)).foldl pickLater none

/-- The per-symbol fetch loop: one latest document per coin that has one,
coins without data skipped (with a logged warning). -/
def fetchDocs (store : List Doc) (coins : List String) : List Doc :=
  coins.filterMap (latestDoc store)

/-- Column union of `pd.concat` (order of first appearance). -/
def unionAppend (acc l : List String) : List String :=
  acc ++ l.filter (fun c => !acc.contains c)

def unionCols (ls : List (List String)) : List String :=
  ls.foldl unionAppend []

/-- `df_latest = pd.concat(all_latest_rows, ignore_index=True)`. -/
def mkFrame (docs : List Doc) : DataFrame :=
  { cols := unionCols (docs.map Doc.cols), rows := docs.map Doc.row }

/-- `df_model_input = df_latest[[c for c in BOUGHT_COLUMNS if c in
df_latest.columns]]`. -/
def modelInputOf (df : DataFrame) : DataFrame :=
  df.select (BOUGHT_COLUMNS.filter (fun c => df.cols.contains c))

/-! ## orchstrator.py : scored-frame post-processing -/

/-- `.astype(str)` on a cell. -/
def astypeStr (v : Option Value) : Option Value :=
  match v with
  | none => some (.str "nan")
  | some (.str s) => some (.str s)
  | some (.num q) => some (.str (toString q))

/-- Lines 122-123: positional assignment of `symbol` and `buyid` from
`df_latest` onto the scored frame. -/
def attachIds (st dfLatest : DataFrame) : DataFrame :=
  (st.setCol "symbol" (dfLatest.rows.map (fun r => r "symbol"))).setCol
    "buyid" (dfLatest.rows.map (fun r => astypeStr (r "_id")))

/-- Line 126-127: add a constant `prediction` column when absent. -/
def defaultPrediction (df : DataFrame) : DataFrame :=
  if df.cols.contains "prediction" then df
  else df.setCol "prediction" (List.replicate df.rows.length (some (Value.str "BUY")))

/-- Line 128: `suggested_trades["prediction"].fillna("BUY", inplace=True)`. -/
def fillnaCol (df : DataFrame) (name : String) (v : Value) : DataFrame :=
  { df with rows := df.rows.map (fun r => if (r name).isNone then updateRow r name (some v) else r) }

/-- Line 136: keep only the rows whose `confidence_score` is not null. -/
def filterNotNull (df : DataFrame) (name : String) : DataFrame :=
  { df with rows := df.rows.filter (fun r => (r name).isSome) }

def saveColumns : List String := ["symbol", "buyid", "prediction", "confidence_score"]

/-- A record of `df_to_save.to_dict("records")`: the persisted shape has
at most the four fields `symbol`, `buyid`, `prediction`,
`confidence_score` (a field is present only when its column was kept). -/
structure Trade where
  symbol : Option Value
  buyid : Option Value
  prediction : Option Value
  confidence_score : Option Value
deriving DecidableEq, Repr

def mkRecord (cs : List String) (r : Row) : Trade :=
  { symbol := if cs.contains "symbol" then r "symbol" else none
    buyid := if cs.contains "buyid" then r "buyid" else none
    prediction := if cs.contains "prediction" then r "prediction" else none
    confidence_score := if cs.contains "confidence_score" then r "confidence_score" else none }

/-! ## orchstrator.py : the result writer -/

/-- The upsert identity key `(symbol, prediction)`. -/
def Trade.key (t : Trade) : Option Value × Option Value := (t.symbol, t.prediction)

/-- `update_one({"symbol": .., "prediction": ..}, {"$set": record},
upsert=True)`: replace the first document matching the key (the unique
index guarantees there is at most one), else insert. -/
def upsertOne (dest : List Trade) (t : Trade) : List Trade :=
  match dest with
  | [] => [t]
  | u :: rest => if u.key = t.key then t :: rest else u :: upsertOne rest t

def upsertAll (dest : List Trade) (l : List Trade) : List Trade :=
  l.foldl upsertOne dest

/-- The save loop of lines 148-159: the whole `for` loop sits inside one
`try`, so the first record whose `update_one` raises ends the loop; the
exception is logged and the run continues after the loop.  Returns the
destination collection and whether a write error occurred. -/
def writeRecords (fails : Trade → Bool) (dest : List Trade) : List Trade → List Trade × Bool
  | [] => (dest, false)
  | t :: rest => if fails t then (dest, true) else writeRecords fails (upsertOne dest t) rest

def countKey (dest : List Trade) (k : Option Value × Option Value) : Nat :=
  (dest.filter (fun u => u.key = k)).length

def hasKey (dest : List Trade) (k : Option Value × Option Value) : Bool :=
  dest.any (fun u => u.key = k)

/-- Whether the destination collection violates the unique compound
index on `(symbol, prediction)`; `create_index(..., unique=True)` raises
on such a collection, which the connect `try/except` turns into an
abort. -/
def hasDupKeys (dest : List Trade) : Bool :=
  !decide (dest.map Trade.key).Nodup

/-! ## orchstrator.py : the pipeline -/

/-- `config.get(key)`: a flat key-value map. -/
def Config : Type := String → Option String

/-- The six keys checked by lines 35-41, in checking order. -/
def requiredKeys : List String :=
  ["connection_str", "db_name", "collection_name",
   "suggested_trades_collection", "coins_file", "model_file"]

/-- `not val` on a configuration value: absent or empty string. -/
def isMissing : Option String → Bool
  | none => true
  | some s => s = ""

def missingKeys (cfg : Config) : List String :=
  requiredKeys.filter (fun k => isMissing (cfg k))

inductive AbortReason where
  | missingConfig (keys : List String)
  | coinsFileNotFound
  | modelFileNotFound
  | invalidCoins
  | connectError
  | noData
  | modelError (message : String)
  | noPredictions
  | noConfidence
  | noValidRows
deriving DecidableEq, Repr

inductive Outcome where
  | aborted (r : AbortReason)
  | doneWriteError
  | done (saved : Nat)
deriving DecidableEq, Repr

def Outcome.isAborted : Outcome → Bool
  | .aborted _ => true
  | _ => false

structure PipeResult where
  outcome : Outcome
  dest : List Trade
deriving DecidableEq

/-- The environment of one run: the external collaborators of
`orchestrator_stage2`.  `coinsJson p` is the parsed content of the coins
file at `p` (`none` when it is not a list). -/
structure Env where
  fileExists : String → Bool
  coinsJson : String → Option (List String)
  connectOk : Bool
  store : List Doc
  dest : List Trade
  model : ModelOracle
  writeFails : Trade → Bool

inductive StageResult where
  | abort (r : AbortReason)
  | write (records : List Trade)
deriving DecidableEq

/-- Lines 115-145: everything between a successful model run and the
save loop. -/
def postScore (st dfLatest : DataFrame) : StageResult :=
  if st.empty then .abort .noPredictions
  else
    let st4 := fillnaCol (defaultPrediction (attachIds st dfLatest)) "prediction" (.str "BUY")
    if !st4.cols.contains "confidence_score" then .abort .noConfidence
    else
      let st5 := filterNotNull st4 "confidence_score"
      if st5.empty then .abort .noValidRows
      else .write (st5.rows.map (mkRecord (saveColumns.filter (fun c => st5.cols.contains c))))

/-- Everything `orchestrator_stage2` does before the save loop: every
early `return` becomes an `abort`, reaching the save loop yields the
record list of `df_to_save.to_dict("records")`. -/
def stage (cfg : Config) (env : Env) : StageResult :=
  if !(missingKeys cfg).isEmpty then .abort (.missingConfig (missingKeys cfg))
  else if !env.fileExists ((cfg "coins_file").getD "") then .abort .coinsFileNotFound
  else if !env.fileExists ((cfg "model_file").getD "") then .abort .modelFileNotFound
  else
    match env.coinsJson ((cfg "coins_file").getD "") with
    | none => .abort .invalidCoins
    | some coins =>
      if coins.isEmpty then .abort .invalidCoins
      else if !env.connectOk then .abort .connectError
      else if hasDupKeys env.dest then .abort .connectError
      else if (fetchDocs env.store coins).isEmpty then .abort .noData
      else
        match run env.model (some (modelInputOf (mkFrame (fetchDocs env.store coins))))
            (some ((cfg "model_file").getD "")) with
        | .err m => .abort (.modelError m)
        | .ok st => postScore st (mkFrame (fetchDocs env.store coins))

/-- `orchestrator_stage2(config)` end to end. -/
def runPipeline (cfg : Config) (env : Env) : PipeResult :=
  match stage cfg env with
  | .abort r => ⟨.aborted r, env.dest⟩
  | .write records =>
    match writeRecords env.writeFails env.dest records with
    | (d, true) => ⟨.doneWriteError, d⟩
    | (d, false) => ⟨.done records.length, d⟩

/-! ## Derived descriptions of the success path -/

/-- The coin list a run works with (empty when the pipeline never gets
that far). -/
def coinsOf (cfg : Config) (env : Env) : List String :=
  (env.coinsJson ((cfg "coins_file").getD "")).getD []

/-- The `df_model_input` frame a run passes to the model. -/
def batchOf (cfg : Config) (env : Env) : DataFrame :=
  modelInputOf (mkFrame (fetchDocs env.store (coinsOf cfg env)))

/-- The score of one document's row, projected onto the feature
columns. -/
def scoreOfDoc (m : ModelOracle) (fc : List String) (d : Doc) : Option ℚ :=
  m.score (fc.map d.row)

/-- The record built from one fetched document. -/
def tradeOfDoc (m : ModelOracle) (fc : List String) (d : Doc) : Trade :=
  ⟨some (.str d.symbol), some (.str d.oid), some (.str "BUY"),
    Option.map Value.num (scoreOfDoc m fc d)⟩

/-- What the pipeline persists, described per fetched document: one
record per document whose score is not null, in fetch order. -/
def tradesOfDocs (m : ModelOracle) (docs : List Doc) : List Trade :=
  let fc := featureColsOf (modelInputOf (mkFrame docs))
  (docs.filter (fun d => (scoreOfDoc m fc d).isSome)).map (tradeOfDoc m fc)

/-- The `suggested_trades` frame right before the confidence filter
(after symbol/buyid attachment and the prediction default/fillna). -/
def st4Of (m : ModelOracle) (docs : List Doc) : DataFrame :=
  fillnaCol (defaultPrediction (attachIds (scoredFrame m (modelInputOf (mkFrame docs)))
    (mkFrame docs))) "prediction" (.str "BUY")

/-- The row update performed by the scoring stage on one row. -/
def scoreRowUpd (m : ModelOracle) (fc : List String) (r : Row) : Row :=
  updateRow (updateRow r "confidence_score" (Option.map Value.num (m.score (fc.map r))))
    "prediction" (some (.str "BUY"))

/-- The row update performed by the symbol/buyid attachment on one
row (`rL` is the corresponding `df_latest` row). -/
def attachRowUpd (r0 rL : Row) : Row :=
  updateRow (updateRow r0 "symbol" (rL "symbol")) "buyid" (astypeStr (rL "_id"))

/-! ## Concrete fixtures (used by witnesses and counterexamples) -/

def docBTC : Doc where
  oid := "id1"
  symbol := "BTCUSDT"
  timestamp := 5
  featCols := ["open", "close"]
  feat := fun c => if c = "open" then some (.num 1) else if c = "close" then some (.num 2) else none

def docBTC2 : Doc where
  oid := "id2"
  symbol := "BTCUSDT"
  timestamp := 9
  featCols := ["open"]
  feat := fun c => if c = "open" then some (.num 7) else none

def docETH : Doc where
  oid := "id3"
  symbol := "ETHUSDT"
  timestamp := 1
  featCols := ["open", "name"]
  feat := fun c => if c = "open" then some (.num 3) else if c = "name" then some (.str "x") else none

/-- A document with no required feature column at all: only the string
field `name` beside `_id`, `symbol`, `timestamp`. -/
def docBare : Doc where
  oid := "id4"
  symbol := "BARE"
  timestamp := 2
  featCols := ["name"]
  feat := fun c => if c = "name" then some (.str "y") else none

def storeW : List Doc := [docBTC, docBTC2, docETH]

def oracleW : ModelOracle where
  loadOk := fun _ => true
  predictOk := true
  score := fun _ => some 1

def cfgW : Config := fun k =>
  if k = "coins_file" then some "coins.json"
  else if k = "model_file" then some "model.json"
  else if k ∈ requiredKeys then some "x" else none

def envW : Env where
  fileExists := fun _ => true
  coinsJson := fun _ => some ["ETHUSDT", "NOPE", "BTCUSDT"]
  connectOk := true
  store := storeW
  dest := []
  model := oracleW
  writeFails := fun _ => false

/-- A configuration with `db_name` absent and `model_file` empty. -/
def cfgMissing : Config := fun k =>
  if k = "db_name" then none
  else if k = "model_file" then some ""
  else if k ∈ requiredKeys then some "x" else none

/-- `envW`, except that the model file does not exist. -/
def envNoModelFile : Env :=
  { envW with fileExists := fun s => !(s == "model.json") }

/-- `envW`, except that the only tracked coin has no usable feature
column at all. -/
def envBare : Env :=
  { envW with store := [docBare], coinsJson := fun _ => some ["BARE"] }

def tradeA : Trade :=
  ⟨some (.str "AAA"), some (.str "a1"), some (.str "BUY"), some (.num 1)⟩

def tradeB : Trade :=
  ⟨some (.str "BBB"), some (.str "b1"), some (.str "BUY"), some (.num 2)⟩

/-- A write-failure oracle that fails exactly on symbol `AAA`. -/
def failsAAA : Trade → Bool := fun t => decide (t.symbol = some (.str "AAA"))

/-- A one-column numeric frame holding only `relative_volume`. -/
def dfRelVol : DataFrame where
  cols := ["relative_volume"]
  rows := [fun c => if c = "relative_volume" then some (.num 1) else none]

/-- The same column duplicated, as the orchestrator's `BOUGHT_COLUMNS`
selection produces. -/
def dfRelVolDup : DataFrame where
  cols := ["relative_volume", "relative_volume"]
  rows := [fun c => if c = "relative_volume" then some (.num 1) else none]

/-- A frame with rows but not a single column, as produced by the
`BOUGHT_COLUMNS` selection when no bought column is present. -/
def dfNoCols : DataFrame where
  cols := []
  rows := [fun _ => none]

/-- A row with numeric `open` and `quote_asset_volume` fields. -/
def rowQav : Row := fun c =>
  if c = "open" then some (.num 1)
  else if c = "quote_asset_volume" then some (.num 2) else none

/-- A one-row frame with a single numeric `open` column whose
`quote_asset_volume` is also present and numeric. -/
def dfQav : DataFrame where
  cols := ["open", "quote_asset_volume"]
  rows := [rowQav]

/-- A one-row frame whose only column is the string field `name`: no
required feature column, but a nonempty frame. -/
def dfNameOnly : DataFrame where
  cols := ["name"]
  rows := [fun c => if c = "name" then some (.str "z") else none]

/-- The records `stage cfgW envW` reaches the save loop with. -/
def recsW : List Trade :=
  tradesOfDocs oracleW (fetchDocs storeW ["ETHUSDT", "NOPE", "BTCUSDT"])

/-- The record the fixture run persists for `ETHUSDT`. -/
def tradeETH : Trade :=
  ⟨some (.str "ETHUSDT"), some (.str "id3"), some (.str "BUY"), some (.num 1)⟩

/-! # Lemmas about the result writer -/

theorem countKey_cons (u : Trade) (d : List Trade) (k : Option Value × Option Value) :
    countKey (u :: d) k = (if u.key = k then 1 else 0) + countKey d k := by
  by_cases h : u.key = k <;>
    simp [countKey, List.filter_cons, h, Nat.add_comm]

theorem countKey_append (d e : List Trade) (k : Option Value × Option Value) :
    countKey (d ++ e) k = countKey d k + countKey e k := by
  simp [countKey, List.filter_append]

theorem hasKey_cons (u : Trade) (d : List Trade) (k : Option Value × Option Value) :
    hasKey (u :: d) k = (decide (u.key = k) || hasKey d k) := by
  simp [hasKey]

theorem hasKey_append (d e : List Trade) (k : Option Value × Option Value) :
    hasKey (d ++ e) k = (hasKey d k || hasKey e k) := by
  simp [hasKey]

theorem hasKey_false_iff (d : List Trade) (k : Option Value × Option Value) :
    hasKey d k = false ↔ countKey d k = 0 := by
  induction d with
  | nil => simp [hasKey, countKey]
  | cons u rest ih =>
    by_cases h : u.key = k <;> simp [hasKey_cons, countKey_cons, h, ih]

theorem upsertOne_of_not_hasKey (d : List Trade) (t : Trade)
    (h : hasKey d t.key = false) : upsertOne d t = d ++ [t] := by
  induction d with
  | nil => rfl
  | cons u rest ih =>
    rw [hasKey_cons] at h
    simp only [Bool.or_eq_false_iff, decide_eq_false_iff_not] at h
    simp [upsertOne, h.1, ih h.2]

theorem upsertOne_of_hasKey (d : List Trade) (t : Trade)
    (h : hasKey d t.key = true) :
    ∃ pre u post, d = pre ++ u :: post ∧ u.key = t.key ∧
      hasKey pre t.key = false ∧ upsertOne d t = pre ++ t :: post := by
  induction d with
  | nil => simp [hasKey] at h
  | cons v rest ih =>
    by_cases hv : v.key = t.key
    · exact ⟨[], v, rest, by simp, hv, by simp [hasKey], by simp [upsertOne, hv]⟩
    · rw [hasKey_cons] at h
      simp only [Bool.or_eq_true, decide_eq_true_eq] at h
      rcases h with h | h
      · exact absurd h hv
      · obtain ⟨pre, u, post, hd, hu, hp, hres⟩ := ih h
        exact ⟨v :: pre, u, post, by simp [hd], hu,
          by simp [hasKey_cons, hv, hp], by simp [upsertOne, hv, hres]⟩

theorem countKey_upsertOne (d : List Trade) (t : Trade) (k : Option Value × Option Value) :
    countKey (upsertOne d t) k =
      if hasKey d t.key then countKey d k
      else if t.key = k then countKey d k + 1 else countKey d k := by
  cases h : hasKey d t.key with
  | true =>
    obtain ⟨pre, u, post, hd, hu, _, hres⟩ := upsertOne_of_hasKey d t h
    subst hd
    rw [hres]
    simp [countKey_append, countKey_cons, hu]
  | false =>
    rw [upsertOne_of_not_hasKey d t h, countKey_append]
    simp only [Bool.false_eq_true, if_false]
    by_cases hk : t.key = k <;> simp [countKey_cons, countKey, hk]

theorem hasKey_upsertOne_self (d : List Trade) (t : Trade) :
    hasKey (upsertOne d t) t.key = true := by
  cases h : hasKey d t.key with
  | true =>
    obtain ⟨pre, u, post, hd, hu, _, hres⟩ := upsertOne_of_hasKey d t h
    rw [hres, hasKey_append, hasKey_cons]
    simp
  | false =>
    rw [upsertOne_of_not_hasKey d t h, hasKey_append, hasKey_cons]
    simp

theorem hasKey_upsertOne_mono (d : List Trade) (t : Trade)
    (k : Option Value × Option Value) (h : hasKey d k = true) :
    hasKey (upsertOne d t) k = true := by
  cases ht : hasKey d t.key with
  | true =>
    obtain ⟨pre, u, post, hd, hu, _, hres⟩ := upsertOne_of_hasKey d t ht
    subst hd
    rw [hres, hasKey_append, hasKey_cons]
    rw [hasKey_append, hasKey_cons] at h
    rw [← hu]
    exact h
  | false =>
    rw [upsertOne_of_not_hasKey d t ht, hasKey_append]
    simp [h]

theorem upsertAll_nil (d : List Trade) : upsertAll d [] = d := rfl

theorem upsertAll_cons (d : List Trade) (t : Trade) (l : List Trade) :
    upsertAll d (t :: l) = upsertAll (upsertOne d t) l := rfl

theorem countKey_upsertAll_le (d : List Trade) (l : List Trade)
    (hd : ∀ k, countKey d k ≤ 1) : ∀ k, countKey (upsertAll d l) k ≤ 1 := by
  induction l generalizing d with
  | nil => exact hd
  | cons t rest ih =>
    rw [upsertAll_cons]
    apply ih
    intro k
    rw [countKey_upsertOne]
    split
    · exact hd k
    · split
      · rename_i hnk hk
        have h0 : countKey d t.key = 0 :=
          (hasKey_false_iff d t.key).mp (by simpa using hnk)
        rw [← hk, h0]
      · exact hd k

theorem hasKey_upsertAll_mono (d : List Trade) (l : List Trade)
    (k : Option Value × Option Value) (h : hasKey d k = true) :
    hasKey (upsertAll d l) k = true := by
  induction l generalizing d with
  | nil => exact h
  | cons t rest ih => exact ih (upsertOne d t) (hasKey_upsertOne_mono d t k h)

theorem hasKey_upsertAll_of_mem (d : List Trade) (l : List Trade) (t : Trade)
    (h : t ∈ l) : hasKey (upsertAll d l) t.key = true := by
  induction l generalizing d with
  | nil => cases h
  | cons s rest ih =>
    rw [upsertAll_cons]
    rcases List.mem_cons.mp h with rfl | hmem
    · exact hasKey_upsertAll_mono _ rest _ (hasKey_upsertOne_self d t)
    · exact ih (upsertOne d s) hmem

theorem countKey_iterate_le (l : List Trade) (n : ℕ) (d : List Trade)
    (hd : ∀ k, countKey d k ≤ 1) :
    ∀ k, countKey ((fun x => upsertAll x l)^[n] d) k ≤ 1 := by
  induction n generalizing d with
  | zero => simpa using hd
  | succ m ih =>
    rw [Function.iterate_succ_apply]
    exact ih (upsertAll d l) (countKey_upsertAll_le d l hd)

theorem hasKey_iterate_mono (l : List Trade) (n : ℕ) (d : List Trade)
    (k : Option Value × Option Value) (h : hasKey d k = true) :
    hasKey ((fun x => upsertAll x l)^[n] d) k = true := by
  induction n generalizing d with
  | zero => simpa using h
  | succ m ih =>
    rw [Function.iterate_succ_apply]
    exact ih (upsertAll d l) (hasKey_upsertAll_mono d l k h)

/-- Claim C1: the writer's `update_one(filter=(symbol, prediction),
$set=record, upsert=True)` overwrites the record holding the key when
one exists (all fields, `buyid` and `confidence_score` included) and
inserts otherwise, so running the save loop any number `n ≥ 1` of times
over the same record list leaves a destination collection with at most
one record per `(symbol, prediction)` key, and exactly one for every key
that was written — never duplicates. -/
theorem upsert_identity_idempotent (d l : List Trade) (n : ℕ)
    (hd : ∀ k, countKey d k ≤ 1) (hn : 1 ≤ n) :
    (∀ t : Trade, hasKey d t.key = false → upsertOne d t = d ++ [t]) ∧
    (∀ t : Trade, hasKey d t.key = true →
      ∃ pre u post, d = pre ++ u :: post ∧ u.key = t.key ∧
        upsertOne d t = pre ++ t :: post) ∧
    (∀ k, countKey ((fun x => upsertAll x l)^[n] d) k ≤ 1) ∧
    (∀ t ∈ l, countKey ((fun x => upsertAll x l)^[n] d) t.key = 1) := by
  refine ⟨fun t ht => upsertOne_of_not_hasKey d t ht,
    fun t ht => ?_, countKey_iterate_le l n d hd, fun t ht => ?_⟩
  · obtain ⟨pre, u, post, h1, h2, _, h4⟩ := upsertOne_of_hasKey d t ht
    exact ⟨pre, u, post, h1, h2, h4⟩
  · obtain ⟨m, rfl⟩ := Nat.exists_eq_add_of_le hn
    have hmem : hasKey ((fun x => upsertAll x l)^[1 + m] d) t.key = true := by
      rw [Nat.add_comm, Function.iterate_succ_apply]
      exact hasKey_iterate_mono l m (upsertAll d l) t.key
        (hasKey_upsertAll_of_mem d l t ht)
    have hle := countKey_iterate_le l (1 + m) d hd t.key
    have hne : countKey ((fun x => upsertAll x l)^[1 + m] d) t.key ≠ 0 := by
      intro h0
      rw [← hasKey_false_iff] at h0
      rw [h0] at hmem
      cases hmem
    omega

/-- Witness for C1: two runs of the save loop over the single record
`tradeA`, starting from an empty collection, leave exactly one record
with `tradeA`'s key. -/
theorem upsert_identity_idempotent_witness :
    countKey ((fun x => upsertAll x [tradeA])^[2] []) tradeA.key = 1 :=
  (upsert_identity_idempotent [] [tradeA] 2
    (fun k => by simp [countKey]) (by norm_num)).2.2.2 tradeA (by simp)

/-- The save loop computed in closed form: the records strictly before
the first failing one are upserted, everything from the first failure on
is skipped, and the boolean reports whether a write failed. -/
theorem writeRecords_eq (fails : Trade → Bool) (dest : List Trade) (recs : List Trade) :
    writeRecords fails dest recs =
      (upsertAll dest (recs.takeWhile (fun t => !fails t)), recs.any fails) := by
  induction recs generalizing dest with
  | nil => rfl
  | cons t rest ih =>
    cases h : fails t with
    | true => simp [writeRecords, h, List.takeWhile_cons, upsertAll_nil]
    | false => simp [writeRecords, h, List.takeWhile_cons, upsertAll_cons, ih]

/-- Counterexample to claim C2 as stated: the whole save loop sits in a
single `try`, so after one record's upsert fails the remaining records
are NOT attempted.  Concretely, with a write oracle failing only on
`tradeA`, the batch `[tradeA, tradeB]` leaves the non-failing `tradeB`
unpersisted. -/
theorem write_failure_not_isolated :
    ¬ ∀ (fails : Trade → Bool) (dest recs : List Trade),
        ∀ t ∈ recs, fails t = false →
          hasKey (writeRecords fails dest recs).1 t.key = true := by
  intro h
  have h2 := h failsAAA [] [tradeA, tradeB] tradeB (by decide) (by decide)
  revert h2
  decide

/-- Claim C2 (amended): if one record's upsert fails, the failure is
caught and logged, the records before it stay persisted, but the rest of
the batch is skipped (the `try` wraps the whole loop); the run itself
still terminates normally, reporting `doneWriteError` instead of an
abort. -/
theorem write_failure_skips_rest_of_batch (fails : Trade → Bool)
    (dest recs : List Trade) (cfg : Config) (env : Env) (rs : List Trade)
    (h : stage cfg env = .write rs) :
    writeRecords fails dest recs =
      (upsertAll dest (recs.takeWhile (fun t => !fails t)), recs.any fails) ∧
    (runPipeline cfg env).dest =
      upsertAll env.dest (rs.takeWhile (fun t => !env.writeFails t)) ∧
    (runPipeline cfg env).outcome =
      (if rs.any env.writeFails then .doneWriteError else .done rs.length) := by
  refine ⟨writeRecords_eq fails dest recs, ?_, ?_⟩ <;>
  · unfold runPipeline
    rw [h]
    dsimp only
    rw [writeRecords_eq]
    cases hf : rs.any env.writeFails <;> simp

/-- Witness for C2 (amended), at the concrete fixture run: the failing
batch `[tradeA, tradeB]` persists nothing (the failure is on the first
record), and the fixture pipeline run persists its two records. -/
theorem write_failure_skips_rest_of_batch_witness :
    writeRecords failsAAA [] [tradeA, tradeB] =
      (upsertAll [] (([tradeA, tradeB]).takeWhile (fun t => !failsAAA t)),
        ([tradeA, tradeB]).any failsAAA) ∧
    (runPipeline cfgW envW).dest =
      upsertAll envW.dest (recsW.takeWhile (fun t => !envW.writeFails t)) ∧
    (runPipeline cfgW envW).outcome =
      (if recsW.any envW.writeFails then .doneWriteError else .done recsW.length) :=
  write_failure_skips_rest_of_batch failsAAA [] [tradeA, tradeB] cfgW envW recsW (by decide)

/-! # Lemmas about the pipeline's abort behaviour -/

theorem runPipeline_abort (cfg : Config) (env : Env) (r : AbortReason)
    (h : stage cfg env = .abort r) :
    runPipeline cfg env = ⟨.aborted r, env.dest⟩ := by
  unfold runPipeline
  rw [h]

theorem runPipeline_dest_of_aborted (cfg : Config) (env : Env)
    (h : (runPipeline cfg env).outcome.isAborted = true) :
    (runPipeline cfg env).dest = env.dest := by
  unfold runPipeline at h ⊢
  cases hs : stage cfg env with
  | abort r => rfl
  | write rs =>
    rw [hs] at h
    dsimp only at h
    rcases hw : writeRecords env.writeFails env.dest rs with ⟨d, b⟩
    rw [hw] at h
    cases b <;> simp [Outcome.isAborted] at h

theorem stage_aborts_without_model_file (cfg : Config) (env : Env) (mf : String)
    (h1 : cfg "model_file" = some mf) (h2 : env.fileExists mf = false) :
    ∃ r, stage cfg env = .abort r := by
  unfold stage
  split
  · exact ⟨_, rfl⟩
  · split
    · exact ⟨_, rfl⟩
    · split
      · exact ⟨_, rfl⟩
      · rename_i h3
        rw [h1] at h3
        simp [h2] at h3

/-- Claim C5: a configuration with any of the six required keys missing
or empty aborts the run with the full list of missing keys (every
missing key is reported, not only the first), leaving the destination
untouched — uniformly in the rest of the environment, i.e. before any
I/O is consulted. -/
theorem missing_config_aborts_listing_all (cfg : Config) (env : Env)
    (h : missingKeys cfg ≠ []) :
    runPipeline cfg env = ⟨.aborted (.missingConfig (missingKeys cfg)), env.dest⟩ ∧
    (∀ k ∈ requiredKeys, isMissing (cfg k) = true → k ∈ missingKeys cfg) := by
  constructor
  · have he : (missingKeys cfg).isEmpty = false := by
      cases hm : missingKeys cfg with
      | nil => exact absurd hm h
      | cons a l => rfl
    apply runPipeline_abort
    unfold stage
    rw [he]
    rfl
  · exact fun k hk hm => List.mem_filter.mpr ⟨hk, hm⟩

/-- Witness for C5: a configuration with `db_name` absent and
`model_file` empty aborts reporting exactly those two keys. -/
theorem missing_config_aborts_listing_all_witness :
    runPipeline cfgMissing envW =
      ⟨.aborted (.missingConfig (missingKeys cfgMissing)), envW.dest⟩ ∧
    "db_name" ∈ missingKeys cfgMissing ∧ "model_file" ∈ missingKeys cfgMissing :=
  have h := missing_config_aborts_listing_all cfgMissing envW (by decide)
  ⟨h.1, h.2 "db_name" (by decide) (by decide), h.2 "model_file" (by decide) (by decide)⟩

/-- Claim C7: every stage failure before scoring terminates the run with
an error and leaves the destination collection unchanged (every abort
happens before the save loop), and in particular a non-existent model
file path makes the run abort with the destination unchanged. -/
theorem abort_before_scoring_is_clean (cfg : Config) (env : Env) (mf : String)
    (h1 : cfg "model_file" = some mf) (h2 : env.fileExists mf = false) :
    (∀ cfg2 env2 r, stage cfg2 env2 = .abort r →
      runPipeline cfg2 env2 = ⟨.aborted r, env2.dest⟩) ∧
    (∀ cfg2 env2, (runPipeline cfg2 env2).outcome.isAborted = true →
      (runPipeline cfg2 env2).dest = env2.dest) ∧
    (runPipeline cfg env).outcome.isAborted = true ∧
    (runPipeline cfg env).dest = env.dest := by
  obtain ⟨r, hr⟩ := stage_aborts_without_model_file cfg env mf h1 h2
  refine ⟨runPipeline_abort, runPipeline_dest_of_aborted, ?_, ?_⟩
  · rw [runPipeline_abort cfg env r hr]
    rfl
  · rw [runPipeline_abort cfg env r hr]

/-- Witness for C7: the fixture environment whose model file is absent
aborts and leaves the (empty) destination unchanged. -/
theorem abort_before_scoring_is_clean_witness :
    (runPipeline cfgW envNoModelFile).outcome.isAborted = true ∧
    (runPipeline cfgW envNoModelFile).dest = envNoModelFile.dest :=
  have h := abort_before_scoring_is_clean cfgW envNoModelFile "model.json" rfl rfl
  ⟨h.2.2.1, h.2.2.2⟩

/-! # Inversion lemmas for the success path -/

theorem run_ok_inv (m : ModelOracle) (df : DataFrame) (mf : String)
    (st : DataFrame) (h : run m (some df) (some mf) = .ok st) :
    df.empty = false ∧ mf ≠ "" ∧ m.loadOk mf = true ∧
    (featureColsOf df).isEmpty = false ∧ m.predictOk = true ∧
    st = scoredFrame m df := by
  unfold run at h
  dsimp only at h
  by_cases hemp : df.empty <;> simp [hemp] at h
  by_cases hmf : mf = "" <;> simp [hmf] at h
  by_cases hload : m.loadOk mf <;> simp [hload] at h
  by_cases hfc : featureColsOf df = [] <;> simp [hfc] at h
  by_cases hpred : m.predictOk <;> simp [hpred] at h
  exact ⟨by simpa using hemp, hmf, hload, by simp [hfc], hpred, h.symm⟩

theorem stage_write_inv (cfg : Config) (env : Env) (rs : List Trade)
    (h : stage cfg env = .write rs) :
    ∃ coins st,
      env.coinsJson ((cfg "coins_file").getD "") = some coins ∧
      coins.isEmpty = false ∧
      (fetchDocs env.store coins).isEmpty = false ∧
      run env.model (some (modelInputOf (mkFrame (fetchDocs env.store coins))))
        (some ((cfg "model_file").getD "")) = .ok st ∧
      postScore st (mkFrame (fetchDocs env.store coins)) = .write rs := by
  unfold stage at h
  by_cases hmiss : (missingKeys cfg).isEmpty <;> simp [hmiss] at h
  by_cases hcf : env.fileExists ((cfg "coins_file").getD "") <;> simp [hcf] at h
  by_cases hmfile : env.fileExists ((cfg "model_file").getD "") <;> simp [hmfile] at h
  cases hjson : env.coinsJson ((cfg "coins_file").getD "") with
  | none => rw [hjson] at h; cases h
  | some coins =>
    rw [hjson] at h
    dsimp only at h
    by_cases hcoins : coins = [] <;> simp [hcoins] at h
    by_cases hconn : env.connectOk <;> simp [hconn] at h
    by_cases hdup : hasDupKeys env.dest <;> simp [hdup] at h
    by_cases hdocs : fetchDocs env.store coins = [] <;> simp [hdocs] at h
    cases hrun : run env.model (some (modelInputOf (mkFrame (fetchDocs env.store coins))))
        (some ((cfg "model_file").getD "")) with
    | err msg => rw [hrun] at h; cases h
    | ok st =>
      rw [hrun] at h
      dsimp only at h
      exact ⟨coins, st, rfl, by simp [hcoins], by simp [hdocs], hrun, h⟩


/-- Counterexample to claim C3 as stated: an input batch whose
intersection with the usable numeric columns is empty because not a
single bought column is present at all makes `df_model_input` an empty
frame (zero columns), so `run` fails with the input-data error, not the
feature error — the pipeline still aborts with zero writes, but not
"with a feature error". -/
theorem empty_intersection_not_always_feature_error :
    featureColsOf (batchOf cfgW envBare) = [] ∧
    runPipeline cfgW envBare = ⟨.aborted (.modelError "No input data"), envBare.dest⟩ ∧
    AbortReason.modelError "No input data" ≠
      AbortReason.modelError "No feature columns available for prediction" := by
  refine ⟨by decide, by decide, by decide⟩

/-- Claim C3 (amended): an empty intersection of required and
present-and-numeric columns always aborts the pipeline before any
inference with zero writes; the error is the feature error whenever the
batch frame is nonempty and the model loaded (the no-input-data error
otherwise, since `df.empty` is checked first and model loading
precedes the column check); with at least one usable column and a
loadable model, inference proceeds. -/
theorem empty_feature_intersection_aborts (cfg : Config) (env : Env)
    (m : ModelOracle) (df : DataFrame) (mf : String) :
    (featureColsOf (batchOf cfg env) = [] →
      (runPipeline cfg env).outcome.isAborted = true ∧
      (runPipeline cfg env).dest = env.dest) ∧
    (featureColsOf df = [] → df.empty = false → mf ≠ "" → m.loadOk mf = true →
      run m (some df) (some mf) = .err "No feature columns available for prediction") ∧
    (featureColsOf df ≠ [] → df.empty = false → mf ≠ "" → m.loadOk mf = true →
      m.predictOk = true → run m (some df) (some mf) = .ok (scoredFrame m df)) := by
  refine ⟨fun hfc => ?_, fun hfc hemp hmf hload => ?_, fun hfc hemp hmf hload hpred => ?_⟩
  · cases hs : stage cfg env with
    | abort r =>
      rw [runPipeline_abort cfg env r hs]
      exact ⟨rfl, rfl⟩
    | write rs =>
      exfalso
      obtain ⟨coins, st, hjson, _, _, hrun, _⟩ := stage_write_inv cfg env rs hs
      have hb : batchOf cfg env =
          modelInputOf (mkFrame (fetchDocs env.store coins)) := by
        unfold batchOf coinsOf
        rw [hjson]
        rfl
      rw [hb] at hfc
      have h2 := (run_ok_inv _ _ _ _ hrun).2.2.2.1
      rw [hfc] at h2
      cases h2
  · unfold run
    dsimp only
    simp [hemp, hmf, hload, hfc]
  · unfold run
    dsimp only
    simp [hemp, hmf, hload, hfc, hpred]

/-- Witness for C3 (amended): the bare fixture aborts with untouched
destination; a nonempty one-column frame with no usable feature column
yields exactly the feature error; the `dfQav` frame proceeds to
inference. -/
theorem empty_feature_intersection_aborts_witness :
    ((runPipeline cfgW envBare).outcome.isAborted = true ∧
      (runPipeline cfgW envBare).dest = envBare.dest) ∧
    run oracleW (some dfNameOnly) (some "model.json") =
      .err "No feature columns available for prediction" ∧
    run oracleW (some dfQav) (some "model.json") = .ok (scoredFrame oracleW dfQav) :=
  ⟨(empty_feature_intersection_aborts cfgW envBare oracleW dfNameOnly "model.json").1
      (by decide),
   (empty_feature_intersection_aborts cfgW envBare oracleW dfNameOnly "model.json").2.1
      (by decide) (by decide) (by decide) (by decide),
   (empty_feature_intersection_aborts cfgW envBare oracleW dfQav "model.json").2.2
      (by decide) (by decide) (by decide) (by decide) (by decide)⟩

/-- Claim C9: the four columns appearing only in the model's required
list (`quote_asset_volume`, `number_of_trades`, `taker_buy_base`,
`taker_buy_quote`) are in `REQUIRED_COLUMNS` but not in
`BOUGHT_COLUMNS`, and since the orchestrator projects the fetched batch
onto `BOUGHT_COLUMNS` before calling the model, they can never appear in
the effective feature set — whatever the stored snapshots contain. -/
theorem bought_projection_excludes_required_only_columns (c : String)
    (h : c ∈ ["quote_asset_volume", "number_of_trades", "taker_buy_base", "taker_buy_quote"]) :
    c ∈ REQUIRED_COLUMNS ∧ c ∉ BOUGHT_COLUMNS ∧
    (∀ df : DataFrame, c ∉ featureColsOf (modelInputOf df)) ∧
    (∀ cfg env, c ∉ featureColsOf (batchOf cfg env)) := by
  have hnb : c ∉ BOUGHT_COLUMNS := by
    simp only [List.mem_cons, List.not_mem_nil, or_false] at h
    rcases h with rfl | rfl | rfl | rfl <;> decide
  have hreq : c ∈ REQUIRED_COLUMNS := by
    simp only [List.mem_cons, List.not_mem_nil, or_false] at h
    rcases h with rfl | rfl | rfl | rfl <;> decide
  have hmain : ∀ df : DataFrame, c ∉ featureColsOf (modelInputOf df) := by
    intro df hmem
    have hp := (List.mem_filter.mp hmem).2
    have hc : (modelInputOf df).cols.contains c = true :=
      (Bool.and_eq_true _ _).mp hp |>.1
    have hmemc : c ∈ (modelInputOf df).cols := by simpa using hc
    exact hnb (List.mem_filter.mp hmemc).1
  exact ⟨hreq, hnb, hmain, fun cfg env => hmain _⟩

/-- Witness for C9: `quote_asset_volume` is dropped even from a frame
where it is present and numeric. -/
theorem bought_projection_excludes_required_only_columns_witness :
    "quote_asset_volume" ∉ featureColsOf (modelInputOf dfQav) :=
  (bought_projection_excludes_required_only_columns "quote_asset_volume"
    (by decide)).2.2.1 dfQav


/-! # The success path characterized per fetched document -/

theorem zipWith_map_same {α β γ δ : Type} (f : β → γ → δ) (g : α → β) (h : α → γ)
    (l : List α) :
    List.zipWith f (l.map g) (l.map h) = l.map (fun x => f (g x) (h x)) := by
  induction l with
  | nil => rfl
  | cons a t ih => simp [ih]

theorem zipWith_self_map {α β γ : Type} (f : α → β → γ) (h : α → β) (l : List α) :
    List.zipWith f l (l.map h) = l.map (fun x => f x (h x)) := by
  induction l with
  | nil => rfl
  | cons a t ih => simp [ih]

theorem zipWith_replicate_len {α β γ : Type} (f : α → β → γ) (l : List α) (b : β) :
    List.zipWith f l (List.replicate l.length b) = l.map (fun x => f x b) := by
  induction l with
  | nil => rfl
  | cons a t ih => simp [List.replicate_succ, ih]

/-- The scoring stage, row by row: `df["confidence_score"] = preds` and
`df["prediction"] = "BUY"` update each row in place, positionally. -/
theorem scoredFrame_rows (m : ModelOracle) (df : DataFrame) :
    (scoredFrame m df).rows = df.rows.map (scoreRowUpd m (featureColsOf df)) := by
  unfold scoredFrame DataFrame.setCol DataFrame.select predsOf
  dsimp only
  rw [List.map_map, zipWith_self_map, zipWith_replicate_len, List.map_map]
  rfl

/-- The attachment stage over the fetched documents, row by row. -/
theorem attachIds_scored_rows (m : ModelOracle) (docs : List Doc) :
    (attachIds (scoredFrame m (modelInputOf (mkFrame docs))) (mkFrame docs)).rows =
      docs.map (fun d =>
        attachRowUpd (scoreRowUpd m (featureColsOf (modelInputOf (mkFrame docs))) d.row)
          d.row) := by
  unfold attachIds DataFrame.setCol
  dsimp only
  rw [scoredFrame_rows, show (mkFrame docs).rows = docs.map Doc.row from rfl,
    show (modelInputOf (mkFrame docs)).rows = docs.map Doc.row from rfl]
  simp only [List.map_map]
  rw [zipWith_map_same, zipWith_map_same]
  rfl

theorem st4Of_rows (m : ModelOracle) (docs : List Doc) :
    (st4Of m docs).rows = docs.map (fun d =>
      attachRowUpd (scoreRowUpd m (featureColsOf (modelInputOf (mkFrame docs))) d.row)
        d.row) := by
  unfold st4Of
  rw [show defaultPrediction (attachIds (scoredFrame m (modelInputOf (mkFrame docs)))
      (mkFrame docs)) = attachIds (scoredFrame m (modelInputOf (mkFrame docs)))
      (mkFrame docs) from rfl]
  unfold fillnaCol
  dsimp only
  rw [attachIds_scored_rows, List.map_map]
  apply List.map_congr_left
  intro d _
  simp [attachRowUpd, scoreRowUpd, updateRow, Function.comp]

theorem st5_records (m : ModelOracle) (docs : List Doc) :
    ((filterNotNull (st4Of m docs) "confidence_score").rows.map
      (mkRecord (saveColumns.filter
        (fun c => (filterNotNull (st4Of m docs) "confidence_score").cols.contains c)))) =
      tradesOfDocs m docs := by
  rw [show saveColumns.filter
      (fun c => (filterNotNull (st4Of m docs) "confidence_score").cols.contains c) =
      ["symbol", "buyid", "prediction", "confidence_score"] from rfl]
  unfold filterNotNull
  dsimp only
  rw [st4Of_rows, List.filter_map, List.map_map]
  unfold tradesOfDocs
  dsimp only
  have hfilt : docs.filter ((fun r => (r "confidence_score").isSome) ∘ fun d =>
        attachRowUpd (scoreRowUpd m (featureColsOf (modelInputOf (mkFrame docs))) d.row) d.row) =
      docs.filter (fun d =>
        (scoreOfDoc m (featureColsOf (modelInputOf (mkFrame docs))) d).isSome) := by
    apply List.filter_congr
    intro d _
    simp [Function.comp, attachRowUpd, scoreRowUpd, updateRow, scoreOfDoc]
  rw [hfilt]
  apply List.map_congr_left
  intro d _
  show mkRecord _ (attachRowUpd (scoreRowUpd m _ d.row) d.row) = tradeOfDoc m _ d
  unfold mkRecord tradeOfDoc
  simp [attachRowUpd, scoreRowUpd, updateRow, Doc.row, astypeStr, scoreOfDoc]

/-- Records reaching the save loop are exactly one per fetched document
with a non-null score, built from that same document. -/
theorem postScore_write_inv (m : ModelOracle) (docs : List Doc) (rs : List Trade)
    (h : postScore (scoredFrame m (modelInputOf (mkFrame docs))) (mkFrame docs) = .write rs) :
    rs = tradesOfDocs m docs := by
  unfold postScore at h
  dsimp only at h
  rw [show fillnaCol (defaultPrediction (attachIds (scoredFrame m (modelInputOf (mkFrame docs)))
      (mkFrame docs))) "prediction" (Value.str "BUY") = st4Of m docs from rfl] at h
  by_cases h1 : (scoredFrame m (modelInputOf (mkFrame docs))).empty = true
  · rw [if_pos h1] at h
    cases h
  rw [if_neg h1] at h
  rw [show (!(st4Of m docs).cols.contains "confidence_score") = false from rfl,
    if_neg Bool.false_ne_true] at h
  by_cases h2 : (filterNotNull (st4Of m docs) "confidence_score").empty = true
  · rw [if_pos h2] at h
    cases h
  rw [if_neg h2] at h
  cases h
  exact st5_records m docs

/-- What `stage` hands to the save loop, per fetched document. -/
theorem stage_write_records (cfg : Config) (env : Env) (rs : List Trade)
    (h : stage cfg env = .write rs) :
    ∃ coins, env.coinsJson ((cfg "coins_file").getD "") = some coins ∧
      rs = tradesOfDocs env.model (fetchDocs env.store coins) := by
  obtain ⟨coins, st, hjson, _, _, hrun, hpost⟩ := stage_write_inv cfg env rs h
  have hst := (run_ok_inv _ _ _ _ hrun).2.2.2.2.2
  subst hst
  exact ⟨coins, hjson, postScore_write_inv _ _ _ hpost⟩


/-! # Lemmas about the fetch stage -/

theorem pickLater_some (acc : Option Doc) (a : Doc) :
    ∃ c, pickLater acc a = some c ∧ a.timestamp ≤ c.timestamp := by
  cases acc with
  | none => exact ⟨a, rfl, le_refl _⟩
  | some b =>
    by_cases hgt : a.timestamp > b.timestamp
    · exact ⟨a, by simp [pickLater, hgt], le_refl _⟩
    · exact ⟨b, by simp [pickLater, hgt], by omega⟩

theorem foldl_pickLater_mem (l : List Doc) (acc : Option Doc) (d : Doc)
    (h : l.foldl pickLater acc = some d) : acc = some d ∨ d ∈ l := by
  induction l generalizing acc with
  | nil => exact Or.inl h
  | cons a t ih =>
    rw [List.foldl_cons] at h
    rcases ih (pickLater acc a) h with h2 | h2
    · unfold pickLater at h2
      cases acc with
      | none =>
        injection h2 with h3
        exact Or.inr (by simp [h3])
      | some b =>
        dsimp only at h2
        split at h2
        · injection h2 with h3
          exact Or.inr (by simp [h3])
        · injection h2 with h3
          exact Or.inl (congrArg some h3)
    · exact Or.inr (List.mem_cons_of_mem a h2)

theorem foldl_pickLater_le (l : List Doc) (acc : Option Doc) (d : Doc)
    (h : l.foldl pickLater acc = some d) :
    (∀ b, acc = some b → b.timestamp ≤ d.timestamp) ∧
    ∀ e ∈ l, e.timestamp ≤ d.timestamp := by
  induction l generalizing acc with
  | nil =>
    refine ⟨fun b hb => ?_, fun e he => absurd he (List.not_mem_nil e)⟩
    rw [List.foldl_nil] at h
    rw [h] at hb
    injection hb with hb2
    rw [hb2]
  | cons a t ih =>
    rw [List.foldl_cons] at h
    have hih := ih (pickLater acc a) h
    constructor
    · intro b hb
      subst hb
      obtain ⟨c, hc, hac⟩ := pickLater_some (some b) a
      have hbc : b.timestamp ≤ c.timestamp := by
        unfold pickLater at hc
        dsimp only at hc
        split at hc
        · injection hc with h3
          omega
        · injection hc with h3
          rw [h3]
      exact le_trans hbc (hih.1 c hc)
    · intro e he
      rcases List.mem_cons.mp he with rfl | he2
      · obtain ⟨c, hc, hac⟩ := pickLater_some acc e
        exact le_trans hac (hih.1 c hc)
      · exact hih.2 e he2

theorem foldl_pickLater_isSome (l : List Doc) (b : Doc) :
    ∃ c, l.foldl pickLater (some b) = some c := by
  induction l generalizing b with
  | nil => exact ⟨b, rfl⟩
  | cons a t ih =>
    rw [List.foldl_cons]
    obtain ⟨c, hc, _⟩ := pickLater_some (some b) a
    rw [hc]
    exact ih c

theorem latestDoc_some (store : List Doc) (s : String) (d : Doc)
    (h : latestDoc store s = some d) :
    d ∈ store ∧ d.symbol = s ∧
    ∀ e ∈ store, e.symbol = s → e.timestamp ≤ d.timestamp := by
  unfold latestDoc at h
  rcases foldl_pickLater_mem _ _ _ h with h2 | h2
  · cases h2
  · have hm := List.mem_filter.mp h2
    refine ⟨hm.1, by simpa using hm.2, fun e he hes => ?_⟩
    exact (foldl_pickLater_le _ _ _ h).2 e (List.mem_filter.mpr ⟨he, by simp [hes]⟩)

theorem latestDoc_none_iff (store : List Doc) (s : String) :
    latestDoc store s = none ↔ ∀ d ∈ store, d.symbol ≠ s := by
  unfold latestDoc
  constructor
  · intro h d hd hds
    cases hf : store.filter (fun x => x.symbol == s) with
    | nil =>
      have hmem : d ∈ store.filter (fun x => x.symbol == s) :=
        List.mem_filter.mpr ⟨hd, by simp [hds]⟩
      rw [hf] at hmem
      cases hmem
    | cons a t =>
      rw [hf, List.foldl_cons] at h
      obtain ⟨c, hc⟩ := foldl_pickLater_isSome t a
      rw [show pickLater none a = some a from rfl, hc] at h
      cases h
  · intro h
    cases hf : store.filter (fun x => x.symbol == s) with
    | nil => rfl
    | cons a t =>
      exfalso
      have ha : a ∈ store.filter (fun x => x.symbol == s) := by
        rw [hf]; exact List.mem_cons_self a t
      have hm := List.mem_filter.mp ha
      exact h a hm.1 (by simpa using hm.2)

theorem fetchDocs_sub (store : List Doc) (coins : List String) (d : Doc)
    (h : d ∈ fetchDocs store coins) : d ∈ store := by
  unfold fetchDocs at h
  obtain ⟨c, _, hc⟩ := List.mem_filterMap.mp h
  exact (latestDoc_some store c d hc).1

/-! # Membership helpers for the writer -/

theorem mem_upsertOne (dest : List Trade) (r t : Trade)
    (h : t ∈ upsertOne dest r) : t ∈ dest ∨ t = r := by
  induction dest with
  | nil =>
    simp only [upsertOne] at h
    rcases List.mem_singleton.mp h with rfl
    exact Or.inr rfl
  | cons u rest ih =>
    simp only [upsertOne] at h
    split at h
    · rcases List.mem_cons.mp h with rfl | h2
      · exact Or.inr rfl
      · exact Or.inl (List.mem_cons_of_mem u h2)
    · rcases List.mem_cons.mp h with rfl | h2
      · exact Or.inl (List.mem_cons_self _ _)
      · rcases ih h2 with h3 | h3
        · exact Or.inl (List.mem_cons_of_mem u h3)
        · exact Or.inr h3

theorem mem_upsertAll (dest l : List Trade) (t : Trade)
    (h : t ∈ upsertAll dest l) : t ∈ dest ∨ t ∈ l := by
  induction l generalizing dest with
  | nil => exact Or.inl h
  | cons r rest ih =>
    rw [upsertAll_cons] at h
    rcases ih (upsertOne dest r) h with h2 | h2
    · rcases mem_upsertOne dest r t h2 with h3 | h3
      · exact Or.inl h3
      · exact Or.inr (by simp [h3])
    · exact Or.inr (List.mem_cons_of_mem r h2)

theorem mem_of_mem_takeWhile {α : Type} (p : α → Bool) (l : List α) (a : α)
    (h : a ∈ l.takeWhile p) : a ∈ l := by
  induction l with
  | nil => cases h
  | cons x t ih =>
    rw [List.takeWhile_cons] at h
    split at h
    · rcases List.mem_cons.mp h with rfl | h2
      · exact List.mem_cons_self _ _
      · exact List.mem_cons_of_mem x (ih h2)
    · cases h

/-- One record of `tradesOfDocs` comes from one fetched document with a
non-null score. -/
theorem mem_tradesOfDocs (m : ModelOracle) (docs : List Doc) (t : Trade)
    (h : t ∈ tradesOfDocs m docs) :
    ∃ d, d ∈ docs ∧
      (scoreOfDoc m (featureColsOf (modelInputOf (mkFrame docs))) d).isSome = true ∧
      t = tradeOfDoc m (featureColsOf (modelInputOf (mkFrame docs))) d := by
  unfold tradesOfDocs at h
  dsimp only at h
  obtain ⟨d, hd, rfl⟩ := List.mem_map.mp h
  have hm := List.mem_filter.mp hd
  exact ⟨d, hm.1, hm.2, rfl⟩


/-- Claim C6: the feature store client takes, per tracked symbol, some
matching snapshot of maximal timestamp (querying all matches, ordering
by timestamp descending, keeping at most the first); a symbol with no
snapshot yields none, is skipped by the fetch loop (logged warning),
contributes no row to the batch and no persisted record; every other
symbol contributes exactly its latest snapshot. -/
theorem latest_snapshot_fetch (store : List Doc) (s : String) (coins : List String) :
    (∀ d, latestDoc store s = some d →
      d ∈ store ∧ d.symbol = s ∧ ∀ e ∈ store, e.symbol = s → e.timestamp ≤ d.timestamp) ∧
    (latestDoc store s = none ↔ ∀ d ∈ store, d.symbol ≠ s) ∧
    (fetchDocs store coins = coins.filterMap (latestDoc store)) ∧
    (latestDoc store s = none → ∀ d ∈ fetchDocs store coins, d.symbol ≠ s) ∧
    (∀ cfg env, (∀ d2 ∈ env.store, d2.symbol ≠ s) →
      ∀ t ∈ (runPipeline cfg env).dest, t.symbol = some (.str s) → t ∈ env.dest) := by
  refine ⟨fun d => latestDoc_some store s d, latestDoc_none_iff store s, rfl,
    fun hn d hd hds => ?_, fun cfg env hstore t htd hts => ?_⟩
  · exact ((latestDoc_none_iff store s).mp hn) d (fetchDocs_sub store coins d hd) hds
  · cases hs : stage cfg env with
    | abort r =>
      rw [runPipeline_abort cfg env r hs] at htd
      exact htd
    | write rs =>
      have hdest : (runPipeline cfg env).dest = (writeRecords env.writeFails env.dest rs).1 := by
        unfold runPipeline
        rw [hs]
        dsimp only
        rcases hw : writeRecords env.writeFails env.dest rs with ⟨dd, bb⟩
        cases bb <;> rfl
      rw [hdest, writeRecords_eq] at htd
      rcases mem_upsertAll _ _ _ htd with h2 | h2
      · exact h2
      · exfalso
        have h3 := mem_of_mem_takeWhile _ _ _ h2
        obtain ⟨coins2, hjson, hrs⟩ := stage_write_records cfg env rs hs
        rw [hrs] at h3
        obtain ⟨d, hd, _, rfl⟩ := mem_tradesOfDocs _ _ _ h3
        have hsym : d.symbol = s := by simpa [tradeOfDoc] using hts
        exact hstore d (fetchDocs_sub _ _ _ hd) hsym

/-- Witness for C6: in the fixture store, the latest `BTCUSDT` snapshot
is `docBTC2` (timestamp 9), which dominates `docBTC` (timestamp 5). -/
theorem latest_snapshot_fetch_witness :
    docBTC2 ∈ storeW ∧ docBTC2.symbol = "BTCUSDT" ∧
    docBTC.timestamp ≤ docBTC2.timestamp :=
  have h := (latest_snapshot_fetch storeW "BTCUSDT" ["BTCUSDT"]).1 docBTC2 rfl
  ⟨h.1, h.2.1, h.2.2 docBTC (by simp [storeW]) rfl⟩

/-- Claim C10: every record handed to the save loop has prediction
exactly `BUY`, a non-null numeric confidence score (null-score rows were
filtered out), carries only the four fields of `Trade`, and its symbol
and buyid come from a stored document; moreover the default/fillna stage
leaves no row with a missing or null prediction. -/
theorem persisted_record_invariants (cfg : Config) (env : Env) (rs : List Trade)
    (h : stage cfg env = .write rs) (df : DataFrame) :
    (∀ t ∈ rs, t.prediction = some (.str "BUY") ∧
      (∃ q : ℚ, t.confidence_score = some (.num q)) ∧
      ∃ d, d ∈ env.store ∧ t.symbol = some (.str d.symbol) ∧
        t.buyid = some (.str d.oid)) ∧
    (∀ r ∈ (fillnaCol (defaultPrediction df) "prediction" (.str "BUY")).rows,
      (r "prediction").isSome = true) := by
  constructor
  · intro t ht
    obtain ⟨coins, hjson, hrs⟩ := stage_write_records cfg env rs h
    rw [hrs] at ht
    obtain ⟨d, hd, hscore, rfl⟩ := mem_tradesOfDocs _ _ _ ht
    refine ⟨rfl, ?_, d, fetchDocs_sub _ _ _ hd, rfl, rfl⟩
    unfold tradeOfDoc
    dsimp only
    cases hsc : scoreOfDoc env.model
        (featureColsOf (modelInputOf (mkFrame (fetchDocs env.store coins)))) d with
    | none =>
      rw [hsc] at hscore
      cases hscore
    | some q => exact ⟨q, rfl⟩
  · intro r hr
    unfold fillnaCol at hr
    dsimp only at hr
    obtain ⟨r0, _, rfl⟩ := List.mem_map.mp hr
    by_cases hp : (r0 "prediction").isNone
    · simp [hp, updateRow]
    · cases hv : r0 "prediction" with
      | none => rw [hv] at hp; exact absurd rfl hp
      | some v => simp [hp, hv]

/-- Witness for C10: the fixture record for `ETHUSDT`. -/
theorem persisted_record_invariants_witness :
    tradeETH.prediction = some (.str "BUY") ∧
    (∃ q : ℚ, tradeETH.confidence_score = some (.num q)) ∧
    ∃ d, d ∈ envW.store ∧ tradeETH.symbol = some (.str d.symbol) ∧
      tradeETH.buyid = some (.str d.oid) :=
  (persisted_record_invariants cfgW envW recsW (by decide) dfNameOnly).1
    tradeETH (by decide)

/-- Claim C4: the scoring stage yields exactly one score per row, in row
order (the i-th score is computed from the i-th input row); the
symbol/buyid attachment is positional, so the i-th scored row carries
the symbol and `_id` of the i-th fetched document together with the
confidence score computed from that same document's row; and every
persisted record is built from one fetched document and the score of
that document's own row. -/
theorem order_preservation (m : ModelOracle) (df : DataFrame) (docs : List Doc)
    (cfg : Config) (env : Env) (rs : List Trade) (h : stage cfg env = .write rs) :
    ((scoredFrame m df).rows.length = df.rows.length) ∧
    (∀ (i : ℕ) (r0 : Row), df.rows[i]? = some r0 →
      (scoredFrame m df).rows[i]? = some (scoreRowUpd m (featureColsOf df) r0) ∧
      scoreRowUpd m (featureColsOf df) r0 "confidence_score" =
        Option.map Value.num (m.score ((featureColsOf df).map r0))) ∧
    (∀ (i : ℕ) (d0 : Doc), docs[i]? = some d0 →
      ∃ r1, (attachIds (scoredFrame m (modelInputOf (mkFrame docs)))
          (mkFrame docs)).rows[i]? = some r1 ∧
        r1 "symbol" = some (.str d0.symbol) ∧
        r1 "buyid" = some (.str d0.oid) ∧
        r1 "confidence_score" = Option.map Value.num
          (scoreOfDoc m (featureColsOf (modelInputOf (mkFrame docs))) d0)) ∧
    (∀ t ∈ rs, ∃ coins d,
      env.coinsJson ((cfg "coins_file").getD "") = some coins ∧
      d ∈ fetchDocs env.store coins ∧
      t = tradeOfDoc env.model
        (featureColsOf (modelInputOf (mkFrame (fetchDocs env.store coins)))) d) := by
  refine ⟨?_, fun i r0 hr0 => ⟨?_, ?_⟩, fun i d0 hd0 => ?_, fun t ht => ?_⟩
  · rw [scoredFrame_rows, List.length_map]
  · rw [scoredFrame_rows, List.getElem?_map, hr0]
    rfl
  · simp [scoreRowUpd, updateRow]
  · refine ⟨attachRowUpd (scoreRowUpd m (featureColsOf (modelInputOf (mkFrame docs)))
      d0.row) d0.row, ?_, ?_, ?_, ?_⟩
    · rw [attachIds_scored_rows, List.getElem?_map, hd0]
      rfl
    · simp [attachRowUpd, scoreRowUpd, updateRow, Doc.row]
    · simp [attachRowUpd, scoreRowUpd, updateRow, Doc.row, astypeStr]
    · simp [attachRowUpd, scoreRowUpd, updateRow, scoreOfDoc]
  · obtain ⟨coins, hjson, hrs⟩ := stage_write_records cfg env rs h
    rw [hrs] at ht
    obtain ⟨d, hd, _, rfl⟩ := mem_tradesOfDocs _ _ _ ht
    exact ⟨coins, d, hjson, hd, rfl⟩

/-- Witness for C4: the scored fixture frame has as many rows as its
input and its first score is computed from its first row. -/
theorem order_preservation_witness :
    (scoredFrame oracleW dfQav).rows.length = dfQav.rows.length ∧
    (scoredFrame oracleW dfQav).rows[0]? =
      some (scoreRowUpd oracleW (featureColsOf dfQav) rowQav) ∧
    scoreRowUpd oracleW (featureColsOf dfQav) rowQav "confidence_score" =
      Option.map Value.num (oracleW.score ((featureColsOf dfQav).map rowQav)) :=
  have h := order_preservation oracleW dfQav (fetchDocs storeW ["ETHUSDT", "NOPE", "BTCUSDT"])
    cfgW envW recsW (by decide)
  ⟨h.1, (h.2.1 0 rowQav rfl).1, (h.2.1 0 rowQav rfl).2⟩

/-- Counterexample to claim C8 as stated: `REQUIRED_COLUMNS` lists
`relative_volume` twice and the list-comprehension filter preserves the
duplication, so the feature matrix `df[feature_cols]` built from a frame
holding a single numeric `relative_volume` column carries that column
twice — nothing is de-duplicated. -/
theorem feature_list_duplicates_not_removed :
    ((dfRelVol.select (featureColsOf dfRelVol)).cols).count "relative_volume" = 2 ∧
    ¬ ((dfRelVol.select (featureColsOf dfRelVol)).cols).Nodup := by
  decide

/-- Claim C8 (amended): the required-feature list is NOT de-duplicated:
`relative_volume` and `rsi_x_relative_volume` occur twice in
`REQUIRED_COLUMNS`, and feature selection preserves each column's full
multiplicity whenever the column is present (once) and numeric; a label
that is itself duplicated in the frame — as the orchestrator's
`BOUGHT_COLUMNS` selection produces for exactly these two columns — fails
the numeric-dtype test and is dropped entirely (zero copies, not one). -/
theorem feature_selection_preserves_duplicates (df : DataFrame) (c : String)
    (h1 : df.cols.contains c = true) (h2 : df.isNumericCol c = true)
    (df2 : DataFrame) (c2 : String) (h3 : 1 < df2.cols.count c2) :
    REQUIRED_COLUMNS.count "relative_volume" = 2 ∧
    REQUIRED_COLUMNS.count "rsi_x_relative_volume" = 2 ∧
    (featureColsOf df).count c = REQUIRED_COLUMNS.count c ∧
    c2 ∉ featureColsOf df2 := by
  refine ⟨by decide, by decide, ?_, ?_⟩
  · unfold featureColsOf
    exact List.count_filter (by rw [h1, h2]; rfl)
  · intro hmem
    have hp := (List.mem_filter.mp hmem).2
    have hnum : df2.isNumericCol c2 = true := ((Bool.and_eq_true _ _).mp hp).2
    unfold DataFrame.isNumericCol at hnum
    have hcount := ((Bool.and_eq_true _ _).mp hnum).1
    simp only [beq_iff_eq] at hcount
    omega

/-- Witness for C8 (amended): `relative_volume`, present once and
numeric, is selected twice; duplicated as a frame label, it is dropped
entirely. -/
theorem feature_selection_preserves_duplicates_witness :
    (featureColsOf dfRelVol).count "relative_volume" =
      REQUIRED_COLUMNS.count "relative_volume" ∧
    "relative_volume" ∉ featureColsOf dfRelVolDup :=
  have h := feature_selection_preserves_duplicates dfRelVol "relative_volume"
    (by decide) (by decide) dfRelVolDup "relative_volume" (by decide)
  ⟨h.2.2.1, h.2.2.2⟩

end PredictionBuy
